import Mathlib

/-!
# Verification of the download-orchestration core of CyberDropDownloader

Shallow embedding of `cyberdrop_dl/client/downloaders.py`: the retry wrapper
(`retry`, source lines 21-46), the per-link state machine
(`Downloader.download_file`, lines 75-181, `Downloader.rename_file`,
lines 183-194), the filename-length truncation step of
`Downloader.get_filename` (lines 204-206), and the per-host worker cap of
`get_downloaders` (lines 295-298).

Python strings are modelled as Lean `String`s (operated on through their
underlying `List Char` where slicing or splitting is needed); `yarl.URL`
values are modelled by their canonical string form `scheme://host/seg/…/seg`
with accessor functions mirroring the `.host`, `.name`, `.path` and
`.with_host` operations used by the source.  Collaborators that live outside
the embedded file (`FileLock`, the SQL ledger, `FILE_FORMATS`) are modelled
from the spec, as noted on their definitions.
-/

/-! ## String utilities (models of the Python `str` operations used) -/

/-- Python `pat in s` substring test, on character lists. -/
def subOf (pat : List Char) : List Char → Bool
  | [] => pat.isEmpty
  | c :: rest => pat.isPrefixOf (c :: rest) || subOf pat rest

/-- Python `pat in s` substring test, on strings. -/
def strContains (s pat : String) : Bool := subOf pat.data s.data

/-- Python `s.replace(pat, rep)` (all non-overlapping occurrences,
left to right), on character lists; fuelled by the length of the scanned
list so that the recursion is structural. -/
def replaceAux (pat rep : List Char) : Nat → List Char → List Char
  | 0, l => l
  | _fuel + 1, [] => []
  | fuel + 1, c :: rest =>
    if pat ≠ [] ∧ pat.isPrefixOf (c :: rest) then
      rep ++ replaceAux pat rep fuel ((c :: rest).drop pat.length)
    else c :: replaceAux pat rep fuel rest

/-- Python `s.replace(pat, rep)`. -/
def strReplace (s pat rep : String) : String :=
  ⟨replaceAux pat.data rep.data s.data.length s.data⟩

/-- Python `s.split(c)` for a single-character separator, on character
lists.  Always returns at least one (possibly empty) part. -/
def splitChar (c : Char) : List Char → List (List Char)
  | [] => [[]]
  | a :: rest =>
    match splitChar c rest with
    | [] => [[a]]
    | g :: gs => if a = c then [] :: g :: gs else (a :: g) :: gs

/-- Inverse of `splitChar`: re-join parts with the separator. -/
def joinChar (c : Char) : List (List Char) → List Char
  | [] => []
  | [p] => p
  | p :: q :: rest => p ++ c :: joinChar c (q :: rest)

/-- Python `s.split(sep)[-1]`: the text after the last occurrence of the
separator (the whole string when the separator is absent). -/
def lastSeg (c : Char) (l : List Char) : List Char :=
  (splitChar c l).getLastD []

/-- `filename.split('.')[-1]` on strings, as used throughout the source to
extract an extension. -/
def lastDotSegS (s : String) : String := ⟨lastSeg '.' s.data⟩

/-- `pathlib.Path(...).stem` of a file name: the name with its last suffix
removed; a name without a real suffix (no dot, or only a leading dot) is its
own stem. -/
def stemOf (l : List Char) : List Char :=
  let parts := splitChar '.' l
  if parts.length ≤ 1 then l
  else
    let s := joinChar '.' parts.dropLast
    if s = [] then l else s

/-- `Path.stem` on strings. -/
def stemOfS (s : String) : String := ⟨stemOf s.data⟩

/-! ## URL accessors (model of the `yarl.URL` operations used)

A URL is its canonical string `scheme://host/seg/…/seg`; splitting on `/`
gives `[scheme:, "", host, seg, …]`. -/

/-- `url.host`. -/
def hostOf (u : String) : String := ⟨(splitChar '/' u.data).getD 2 []⟩

/-- `url.name`: the last path segment. -/
def nameOf (u : String) : String := ⟨lastSeg '/' u.data⟩

/-- `url.path`: `/`-joined segments after the host. -/
def pathOf (u : String) : String :=
  ⟨'/' :: joinChar '/' ((splitChar '/' u.data).drop 3)⟩

/-- `url.with_host(h)`. -/
def withHost (u h : String) : String :=
  ⟨joinChar '/' ((splitChar '/' u.data).set 2 h.data)⟩

/-! ## `FILE_FORMATS['Images']` -/

/-- Modelled from the spec: `FILE_FORMATS` lives in
`base_functions/base_functions.py`, which is not part of the embedded file;
§4.1/§4.3 describe it as a fixed static table of known extensions per media
category, of which only the image category is consulted by the retry
wrapper. -/
def FILE_FORMATS_Images : List String :=
  [".jpg", ".jpeg", ".png", ".gif", ".webp"]

/-! ## The retry wrapper (source lines 21-46) -/

/-- Mirror-substitution heuristic applied by `retry` between attempts
(source lines 35-44): only when `'cyberdrop' in args[0].host`; image
extensions are sent to the alternate image node, anything else gets the
textual substitution `fs-05.` → `fs-04.` on the whole URL string. -/
def retryRewrite (u : String) : String :=
  if strContains (hostOf u) "cyberdrop" then
    let ext := "." ++ lastDotSegS (nameOf u)
    if decide (ext ∈ FILE_FORMATS_Images) then withHost u "img-01.cyberdrop.to"
    else strReplace u "fs-05." "fs-04."
  else u

/-- Attempt counters: `self.current_attempt`, keyed by `str(args[0])`. -/
def AttemptCtr := String → Option Nat

def emptyCtr : AttemptCtr := fun _ => none

def setCtr (ctr : AttemptCtr) (k : String) (v : Nat) : AttemptCtr :=
  fun x => if x = k then some v else ctr x

/-- `download_file` lines 79-80: create the counter entry on first sight. -/
def initCtr (ctr : AttemptCtr) (u : String) : AttemptCtr :=
  match ctr u with
  | some _ => ctr
  | none => setCtr ctr u 0

/-- The `retry`-wrapped loop (source lines 24-45) around an action that
fails with `FailureException` on every invocation, returning the number of
invocations performed before the failure is re-raised as terminal (`none`
when the fuel runs out first).  Each iteration: the action initialises its
counter entry (lines 79-80) and fails; the wrapper checks the ceiling
(lines 28-31), increments the counter (line 33), rewrites the URL
(lines 35-44) and retries. -/
def runRetry (attempts : Nat) (disableLimit : Bool) :
    Nat → String → AttemptCtr → Nat → Option Nat
  | 0, _, _, _ => none
  | fuel + 1, u, ctr, tried =>
    let ctr := initCtr ctr u
    let tried := tried + 1
    let c := (ctr u).getD 0
    if !disableLimit && decide (attempts - 1 ≤ c) then some tried
    else runRetry attempts disableLimit fuel (retryRewrite u) (setCtr ctr u (c + 1)) tried

/-- C3 as stated: with `max_attempts = 3` and the limit enabled, every URL's
always-failing action is attempted exactly 3 times before the terminal
failure. -/
def c3Claim : Prop :=
  ∀ u : String, runRetry 3 false 12 u emptyCtr 0 = some 3

/-- C7 as stated: the rewrite fires on the CDN marker + image extension, and
otherwise on the mirror-segment token appearing in the host, independent of
the CDN marker. -/
def specC7Rewrite (u : String) : String :=
  if strContains (hostOf u) "cyberdrop" &&
      decide (("." ++ lastDotSegS (nameOf u)) ∈ FILE_FORMATS_Images) then
    withHost u "img-01.cyberdrop.to"
  else if strContains (hostOf u) "fs-05." then strReplace u "fs-05." "fs-04."
  else u

def c7Claim : Prop := ∀ u : String, retryRewrite u = specC7Rewrite u

/-! ## The downloader factory (source lines 290-304) -/

/-- Line 297: the known-strict host test. -/
def isStrictHost (domain : String) : Bool :=
  strContains domain "bunkr" || strContains domain "pixeldrain" ||
    strContains domain "anonfiles"

/-- Lines 296-298: the effective worker cap of the Downloader produced for a
domain. -/
def effectiveCap (domain : String) (maxWorkers : Nat) : Nat :=
  if isStrictHost domain then (if maxWorkers > 2 then 2 else maxWorkers)
  else maxWorkers

/-- `get_downloaders` (lines 290-304): one `(domain, title, cap)` triple per
`(host, collection)` pair of the cascade. -/
def getDownloaders (domains : List (String × List String)) (maxWorkers : Nat) :
    List (String × String × Nat) :=
  (domains.map (fun d => d.2.map (fun t => (d.1, t, effectiveCap d.1 maxWorkers)))).flatten

/-- C6 as stated: a strict host's cap is 2 regardless of the global cap, any
other host's cap is the global cap. -/
def c6Claim : Prop :=
  (∀ d w, isStrictHost d = true → effectiveCap d w = 2) ∧
  (∀ d w, isStrictHost d = false → effectiveCap d w = w)

/-! ## The file-lock acquisition race (source lines 103-105)

Modelled from the spec: `FileLock` lives in
`base_functions/data_classes.py`, which is not part of the embedded file.
§4.2 gives its contract (`is_locked` / `acquire` / `release` on a table
keyed by filename, polled then acquired by the downloader), §5 gives the
scheduling model (cooperative tasks that may be suspended at every awaited
operation), and §9 records that the separate check-then-set of the source
is a latent race.  `download_file` awaits `check_lock` and `add_lock`
separately (lines 103-105), so a task can be suspended after observing the
lock free and before acquiring it.  The model: two tasks contending for one
filename, each running lines 103-105; `held` is that filename's lock-table
entry. -/

/-- Position of one task inside lines 103-105. -/
inductive LockPc where
  /-- about to evaluate `await check_lock(filename)` (line 103) -/
  | checking
  /-- observed the lock free, about to run `await add_lock(filename)`
  (line 105) -/
  | acquiring
  /-- past `add_lock`: inside the LOCKED..TRANSFERRING range -/
  | locked
  deriving DecidableEq

/-- Shared lock-table entry plus both tasks' positions. -/
structure LockRace where
  held : Bool
  pcA : LockPc
  pcB : LockPc
  deriving DecidableEq

/-- One scheduler step: run the chosen task up to its next suspension
point. -/
def lockStep (s : LockRace) (runA : Bool) : LockRace :=
  match (if runA then s.pcA else s.pcB) with
  | .checking =>
    if s.held then s  -- lock observed held: sleep and re-check (line 104)
    else if runA then { s with pcA := .acquiring } else { s with pcB := .acquiring }
  | .acquiring =>
    if runA then { s with held := true, pcA := .locked }
    else { s with held := true, pcB := .locked }
  | .locked => s

/-- Run a finite schedule (`true` = run task A). -/
def lockRun : List Bool → LockRace → LockRace
  | [], s => s
  | w :: ws, s => lockRun ws (lockStep s w)

/-- Initially the lock is free and both tasks are at line 103. -/
def lockInit : LockRace := ⟨false, .checking, .checking⟩

def bothLocked (s : LockRace) : Bool :=
  decide (s.pcA = .locked) && decide (s.pcB = .locked)

/-- C1 as stated: under arbitrary interleavings, at most one of the two
tasks contending for the same filename is ever inside the
LOCKED..TRANSFERRING range. -/
def c1Claim : Prop :=
  ∀ sched : List Bool, bothLocked (lockRun sched lockInit) = false

/-! ## The per-link state machine: `download_file` (source lines 75-194)

A single sequential run of one link task, with the collaborators the source
awaits turned into explicit state:

* `FileLock` — modelled from the spec (§4.2): a set of held filenames;
* the SQL ledger — modelled from the spec (§6): an association list
  `path ↦ (stored_filename, completed)`; `sql_check_existing` is
  `path_exists_completed`, `get_download_filename` is
  `lookup_assigned_name`, `check_filename` is `name_in_use`,
  `sql_insert_file`/`sql_update_file` write the record;
* the transfer session — an oracle: `get_filesize` returns `totalSize`,
  `download_file` succeeds iff `sessionOk` and otherwise raises with an
  HTTP-like code `errCode`;
* the filesystem — a map `path ↦ size`.

Every externally visible operation is recorded in an event trace. -/

/-- Ledger lookup (first record for the path wins). -/
def lookupL (l : List (String × String × Bool)) (p : String) :
    Option (String × Bool) :=
  (l.find? (fun e => decide (e.1 = p))).map (·.2)

/-- Ledger insert-or-update of the record for a path. -/
def setL (l : List (String × String × Bool)) (p : String) (v : String × Bool) :
    List (String × String × Bool) :=
  (p, v) :: l.filter (fun e => decide (¬e.1 = p))

/-- `sql_check_existing` / `path_exists_completed`. -/
def completedIn (l : List (String × String × Bool)) (p : String) : Bool :=
  match lookupL l p with
  | some (_, c) => c
  | none => false

/-- `get_download_filename` / `lookup_assigned_name`. -/
def assignedName (l : List (String × String × Bool)) (p : String) :
    Option String :=
  (lookupL l p).map (·.1)

/-- `check_filename` / `name_in_use`: is the name recorded for any path? -/
def nameInUse (l : List (String × String × Bool)) (n : String) : Bool :=
  l.any (fun e => decide (e.2.1 = n))

/-- Filesystem lookup: `exists()` is `isSome`, `stat().st_size` the value. -/
def diskGet (d : List (String × Nat)) (p : String) : Option Nat :=
  (d.find? (fun e => decide (e.1 = p))).map (·.2)

/-- Create or overwrite a file. -/
def diskSet (d : List (String × Nat)) (p : String) (v : Nat) :
    List (String × Nat) :=
  (p, v) :: d.filter (fun e => decide (¬e.1 = p))

/-- Remove a file. -/
def diskDel (d : List (String × Nat)) (p : String) : List (String × Nat) :=
  d.filter (fun e => decide (¬e.1 = p))

/-- Lines 83-90: the ledger key; for anonfiles hosts the path loses its
second retained segment (`pop(0)` removes the leading empty segment,
`pop(1)` the second remaining one). -/
def dbPathOf (url : String) : String :=
  let p := pathOf url
  if strContains (hostOf url) "anonfiles" then
    ⟨'/' :: joinChar '/' (((splitChar '/' p.data).eraseIdx 0).eraseIdx 1)⟩
  else p

/-- `self.delay` (line 69). -/
def delayTable : List (String × Nat) := [("cyberfile.is", 1), ("anonfiles.com", 1)]

/-- Lines 149-151: per-host throttle override. -/
def throttleFor (base : Nat) (host : String) : Nat :=
  delayTable.foldl (fun cur kv => if strContains host kv.1 then kv.2 else cur) base

/-- Externally visible operations of one `download_file` run. -/
inductive Ev where
  /-- `File_Lock.add_lock(name)` (line 105) -/
  | lockAdd (name : String)
  /-- `File_Lock.remove_lock(name)` (lines 158/164) -/
  | lockRemove (name : String)
  /-- `sql_insert_file` / `sql_update_file` (`isInsert` distinguishes them) -/
  | ledgerWrite (path name : String) (completed : Bool) (isInsert : Bool)
  /-- `sql_insert_temp` (line 142) -/
  | insertTemp (path : String)
  /-- `session.download_file` (line 153), with the lock set at the call -/
  | transfer (url name : String) (throttle resume : Nat) (locks : List String)
  deriving DecidableEq

/-- How the call ends: a normal return, or re-raising `FailureException`
for the retry wrapper. -/
inductive DlOutcome where
  | ret
  | raiseF
  deriving DecidableEq

/-- The run-time configuration and session oracle of one run. -/
structure DlEnv where
  folder : String
  title : String
  markDownloaded : Bool
  clientThrottle : Nat
  /-- `session.get_filesize` result: the authoritative remote size -/
  totalSize : Nat
  /-- whether `session.download_file` completes without raising -/
  sessionOk : Bool
  /-- `e.code` of the raised exception; `none` when reading it fails -/
  errCode : Option Nat
  deriving DecidableEq

/-- The mutable state shared with other tasks: lock table, ledger, disk. -/
structure DlSt where
  locks : List String
  ledger : List (String × String × Bool)
  disk : List (String × Nat)
  deriving DecidableEq

/-- Lines 122-128: is candidate `n`'s name free both on disk and in the
ledger's name index? -/
def freeName (env : DlEnv) (st : DlSt) (stem ext : String) (n : Nat) : Bool :=
  let fname := stem ++ " (" ++ toString n ++ ")" ++ ext
  (diskGet st.disk (env.folder ++ "/" ++ env.title ++ "/" ++ fname)).isNone &&
    !nameInUse st.ledger fname

/-- Lines 121-128: generate `stem (n)ext` for `n = 1, 2, …` until a name is
free both on disk and in the ledger's name index (fuelled; the source loop
is unbounded). -/
def resolveNameLoop (env : DlEnv) (st : DlSt) (stem ext : String) :
    Nat → Nat → Option String
  | 0, _ => none
  | fuel + 1, n =>
    if freeName env st stem ext n then some (stem ++ " (" ++ toString n ++ ")" ++ ext)
    else resolveNameLoop env st stem ext fuel (n + 1)

/-- `rename_file` (lines 183-194): discard the temp file when the final
path is already occupied, otherwise rename temp → final; then mark the
ledger record completed. -/
def renameFile (env : DlEnv) (db_path fname : String) (st : DlSt) :
    DlSt × List Ev :=
  let complete_file := env.folder ++ "/" ++ env.title ++ "/" ++ fname
  let temp_file := complete_file ++ ".part"
  let st :=
    if (diskGet st.disk complete_file).isSome then
      { st with disk := diskDel st.disk temp_file }
    else
      { st with disk := diskSet (diskDel st.disk temp_file) complete_file
                          ((diskGet st.disk temp_file).getD 0) }
  ({ st with ledger := setL st.ledger db_path (fname, true) },
   [Ev.ledgerWrite db_path fname true false])

/-- Lines 132-181: the tail of `download_file` after the final filename is
fixed — pending ledger record, mark-downloaded mode, resume bookkeeping,
transfer, finalisation, and the failure handler. -/
def downloadFileRest (env : DlEnv) (url db_path original_filename fname : String)
    (st : DlSt) (ev : List Ev) : Option (DlOutcome × DlSt × List Ev) :=
  -- line 132: record (path, filename, completed=0)
  let st := { st with ledger := setL st.ledger db_path (fname, false) }
  let ev := ev ++ [Ev.ledgerWrite db_path fname false true]
  -- lines 134-136: mark-downloaded-only mode returns while the lock is held
  if env.markDownloaded then
    some (.ret, { st with ledger := setL st.ledger db_path (fname, true) },
          ev ++ [Ev.ledgerWrite db_path fname true false])
  else
    -- lines 138-147
    let complete_file := env.folder ++ "/" ++ env.title ++ "/" ++ fname
    let temp_file := complete_file ++ ".part"
    let resume_point := (diskGet st.disk temp_file).getD 0
    let ev := ev ++ [Ev.insertTemp temp_file]
    -- lines 149-151
    let current_throttle := throttleFor env.clientThrottle (hostOf url)
    -- line 153
    let ev := ev ++ [Ev.transfer url fname current_throttle resume_point st.locks]
    if env.sessionOk then
      -- the session streamed the bytes into the temp file
      let st := { st with disk := diskSet st.disk temp_file env.totalSize }
      -- line 157
      let p := renameFile env db_path fname st
      -- line 158
      some (.ret, { p.1 with locks := p.1.locks.erase original_filename },
            (ev ++ p.2) ++ [Ev.lockRemove original_filename])
    else
      -- lines 160-181: release the lock, then classify the failure
      let st := { st with locks := st.locks.erase original_filename }
      let ev := ev ++ [Ev.lockRemove original_filename]
      match env.errCode with
      | some c =>
        if 400 ≤ c ∧ c < 500 ∧ c ≠ 429 then
          if strContains (hostOf url) "media-files.bunkr" then some (.raiseF, st, ev)
          else some (.ret, st, ev)
        else some (.raiseF, st, ev)
      | none => some (.raiseF, st, ev)

/-- `download_file` (lines 75-181), one sequential run.  `none` stands for
divergence: the lock-wait loop spinning on a filename that is never
released, or the collision loop running out of fuel. -/
def downloadFile (env : DlEnv) (url filename : String) (st : DlSt)
    (fuel : Nat) : Option (DlOutcome × DlSt × List Ev) :=
  -- lines 82-90 (the attempt-counter bookkeeping of lines 79-80 is part of
  -- the retry model `runRetry`)
  let db_path := dbPathOf url
  -- lines 93-95: dedup check against the ledger
  if completedIn st.ledger db_path then some (.ret, st, [])
  else
    -- lines 100-101
    let original_filename := filename
    let ext := "." ++ lastDotSegS filename
    -- lines 103-105: a held lock spins forever in a single-task run
    if decide (filename ∈ st.locks) then none
    else
      let st := { st with locks := filename :: st.locks }
      let ev := [Ev.lockAdd filename]
      -- lines 107-108
      let complete_file := env.folder ++ "/" ++ env.title ++ "/" ++ filename
      let partial_file := complete_file ++ ".part"
      if (diskGet st.disk complete_file).isSome ||
          (diskGet st.disk partial_file).isSome then
        -- lines 111-116: completed file of the expected size ⇒ record and
        -- return (without releasing the lock)
        if (diskGet st.disk complete_file).isSome &&
            decide (diskGet st.disk complete_file = some env.totalSize) then
          some (.ret, { st with ledger := setL st.ledger db_path (filename, true) },
                ev ++ [Ev.ledgerWrite db_path filename true true])
        else
          -- lines 118-130 (`if not download_name` is Python-falsy: both a
          -- missing record and a stored empty name trigger the loop)
          let download_name : Option String :=
            match assignedName st.ledger db_path with
            | some dn => if dn = "" then none else some dn
            | none => none
          match download_name with
          | some dn => downloadFileRest env url db_path original_filename dn st ev
          | none =>
            match resolveNameLoop env st (stemOfS filename) ext fuel 1 with
            | some fn => downloadFileRest env url db_path original_filename fn st ev
            | none => none
      else downloadFileRest env url db_path original_filename filename st ev

/-! ## Trace observations -/

/-- The `completed` flags of the ledger writes for one path, in order. -/
def ledgerFlags (p : String) (ev : List Ev) : List Bool :=
  ev.filterMap fun e =>
    match e with
    | .ledgerWrite q _ c _ => if q = p then some c else none
    | _ => none

/-- Ledger-state monotonicity for one path along a trace, starting from
`stage` (0 = absent, 1 = pending seen, 2 = completed seen): a completed
write requires a pending (or completed) record to exist, and a pending
write must not regress a completed record. -/
def ledgerMonotoneAux (p : String) : Nat → List Ev → Bool
  | _, [] => true
  | stage, e :: rest =>
    match e with
    | .ledgerWrite q _ c _ =>
      if q = p then
        if c then decide (1 ≤ stage) && ledgerMonotoneAux p 2 rest
        else decide (stage ≤ 1) && ledgerMonotoneAux p 1 rest
      else ledgerMonotoneAux p stage rest
    | _ => ledgerMonotoneAux p stage rest

/-- C4 as stated: in every run, the ledger writes for the link's path go
absent → pending → completed and never skip the pending stage or
regress. -/
def c4Claim : Prop :=
  ∀ env url fn st fuel out st2 ev,
    downloadFile env url fn st fuel = some (out, st2, ev) →
    ledgerMonotoneAux (dbPathOf url) 0 ev = true

/-- The names targeted by lock-table operations, in order. -/
def lockEvNames (ev : List Ev) : List String :=
  ev.filterMap fun e =>
    match e with
    | .lockAdd n => some n
    | .lockRemove n => some n
    | _ => none

/-- The transfer-session byte-transfer calls: final filename and the lock
set at the moment of the call. -/
def transferEvs (ev : List Ev) : List (String × List String) :=
  ev.filterMap fun e =>
    match e with
    | .transfer _ n _ _ locks => some (n, locks)
    | _ => none

/-- A run that returns normally while its filename is still in the lock
table and no release was ever issued. -/
def leaksLock (env : DlEnv) (url fn : String) (st : DlSt) (fuel : Nat) : Bool :=
  match downloadFile env url fn st fuel with
  | some (.ret, st2, ev) =>
    decide (fn ∈ st2.locks) && ev.all (fun e => decide (¬e = Ev.lockRemove fn))
  | _ => false

/-! ## Filename-length truncation (source lines 204-206) -/

/-- Lines 204-206 of `get_filename`: a name longer than the maximum is cut
to the first `maxLen` characters and `'.' + name.split('.')[-1]` is
appended. -/
def truncStep (maxLen : Nat) (l : List Char) : List Char :=
  if maxLen < l.length then l.take maxLen ++ '.' :: lastSeg '.' l else l

/-- C9 as stated: for every too-long name the result is a truncated stem
followed by exactly the original extension. -/
def c9Claim : Prop :=
  ∀ (l : List Char) (maxLen : Nat), maxLen < l.length →
    ∃ pfx, pfx <+: stemOf l ∧ truncStep maxLen l = pfx ++ '.' :: lastSeg '.' l

/-! ## Concrete scenarios used by witnesses and counterexamples -/

/-- Plain runtime configuration: no mark-downloaded mode, remote size 100,
transfers succeed. -/
def Wenv : DlEnv := ⟨"f", "t", false, 0, 100, true, none⟩

/-- Mark-downloaded-only configuration. -/
def WenvMark : DlEnv := ⟨"f", "t", true, 0, 100, true, none⟩

/-- A completed `b.jpg` of the expected size already on disk. -/
def WstDedup : DlSt := ⟨[], [], [("f/t/b.jpg", 100)]⟩

/-- `a.jpg` (wrong size) and `a (1).jpg` occupy the destination; the ledger
is empty. -/
def WstColl : DlSt := ⟨[], [], [("f/t/a.jpg", 50), ("f/t/a (1).jpg", 7)]⟩

/-- The state `downloadFile` leaves behind on the dedup scenario: the ledger
records the path completed, and `b.jpg` is still in the lock table. -/
def WstDedupOut : DlSt := ⟨["b.jpg"], [("/a/b.jpg", "b.jpg", true)], [("f/t/b.jpg", 100)]⟩

/-- The trace of the dedup scenario: the lock is added and never removed. -/
def WevDedup : List Ev := [.lockAdd "b.jpg", .ledgerWrite "/a/b.jpg" "b.jpg" true true]

/-- The state `downloadFile` leaves behind on the collision scenario. -/
def WstCollOut : DlSt :=
  ⟨[], [("/x/a.jpg", "a (2).jpg", true)],
   [("f/t/a (2).jpg", 100), ("f/t/a.jpg", 50), ("f/t/a (1).jpg", 7)]⟩

/-- The trace of the collision scenario: the lock is keyed by `a.jpg` while
the transfer writes `a (2).jpg`. -/
def WevColl : List Ev :=
  [.lockAdd "a.jpg", .ledgerWrite "/x/a.jpg" "a (2).jpg" false true,
   .insertTemp "f/t/a (2).jpg.part",
   .transfer "https://h.example.com/x/a.jpg" "a (2).jpg" 0 0 ["a.jpg"],
   .ledgerWrite "/x/a.jpg" "a (2).jpg" true false, .lockRemove "a.jpg"]

/-! ## Claims C1, C3, C6, C7 -/

/-- C1: the code violates mutual exclusion.  The schedule «A runs line 103
and observes the lock free, B runs line 103 and observes the lock free,
A runs line 105 and acquires, B runs line 105 and acquires» leaves both
tasks inside the LOCKED..TRANSFERRING range for the same filename. -/
theorem c1_lock_race : ¬ c1Claim := by
  intro h
  exact absurd (h [true, false, true, false]) (by decide)

/-- C3, counterexample: the claim fails on the code.  For the cyberdrop
image URL `https://cyberdrop.me/f/pic.jpg` the always-failing action is
attempted 4 times, not 3: the first retry rewrites the host to
`img-01.cyberdrop.to`, and since the attempt counter is keyed by the
stringified (rewritten) URL, the rewritten URL starts a fresh counter. -/
theorem c3_counterexample : ¬ c3Claim := by
  intro h
  exact absurd (h "https://cyberdrop.me/f/pic.jpg") (by decide)

/-- C3 amended: for every URL that the mirror-substitution heuristic leaves
unchanged (so the per-URL counter key is stable across retries), the
always-failing action is attempted exactly 3 times with `max_attempts = 3`
and the limit enabled, after which the failure propagates as terminal; a
rewrite that changes the URL string resets the counter instead. -/
theorem c3_amended (u : String) (fuel : Nat) (hr : retryRewrite u = u)
    (hf : 3 ≤ fuel) : runRetry 3 false fuel u emptyCtr 0 = some 3 := by
  obtain ⟨f, rfl⟩ : ∃ f, fuel = f + 3 := ⟨fuel - 3, by omega⟩
  simp [runRetry, initCtr, setCtr, emptyCtr, hr]

/-- Witness for `c3_amended` at a URL without the CDN marker. -/
theorem c3_witness :
    retryRewrite "https://kek.example.com/f/file.zip" = "https://kek.example.com/f/file.zip" ∧
    runRetry 3 false 12 "https://kek.example.com/f/file.zip" emptyCtr 0 = some 3 :=
  ⟨by decide, c3_amended "https://kek.example.com/f/file.zip" 12 (by decide) (by decide)⟩

/-- C6, counterexample: the claim fails on the code.  With global cap 1 the
strict host `bunkr.is` gets cap 1, not 2: the source only lowers a cap that
exceeds 2 (`2 if (max_workers > 2) else max_workers`). -/
theorem c6_counterexample : ¬ c6Claim := by
  intro h
  exact absurd (h.1 "bunkr.is" 1 (by decide)) (by decide)

/-- C6 amended: a strict host's cap is the global cap capped at 2
(`min 2 global`), any other host's cap is the global cap as-is; in
particular `bunkr.is` with global cap 10 yields 2, including in the triples
produced by the factory. -/
theorem c6_amended :
    (∀ d w, (isStrictHost d = true → effectiveCap d w = min 2 w) ∧
      (isStrictHost d = false → effectiveCap d w = w)) ∧
    effectiveCap "bunkr.is" 10 = 2 ∧
    getDownloaders [("bunkr.is", ["album"])] 10 = [("bunkr.is", "album", 2)] := by
  refine ⟨fun d w => ⟨fun h => ?_, fun h => ?_⟩, by decide, by decide⟩ <;>
    simp [effectiveCap, h]
  split <;> omega

/-- Witness for `c6_amended` at strict and non-strict hosts. -/
theorem c6_witness :
    effectiveCap "bunkr.is" 1 = min 2 1 ∧
    effectiveCap "pixeldrain.com" 10 = min 2 10 ∧
    effectiveCap "files.example.com" 7 = 7 :=
  ⟨(c6_amended.1 "bunkr.is" 1).1 (by decide),
   (c6_amended.1 "pixeldrain.com" 10).1 (by decide),
   (c6_amended.1 "files.example.com" 7).2 (by decide)⟩

/-- C7, counterexample: the claim fails on the code.  For
`https://fs-05.cyberfile.is/f/file.zip` the host contains the
mirror-segment token `fs-05.` but not the CDN marker, so the claimed
behaviour rewrites it to `fs-04.` while the code leaves the URL unchanged:
the whole mirror-substitution branch is guarded by the CDN marker test. -/
theorem c7_counterexample : ¬ c7Claim := by
  intro h
  exact absurd (h "https://fs-05.cyberfile.is/f/file.zip") (by decide)

/-- C7 amended: the mirror-substitution heuristic applies only when the host
contains the CDN marker `cyberdrop`: then an image extension sends the host
to `img-01.cyberdrop.to`, and any other extension substitutes `fs-05.` →
`fs-04.` textually in the whole URL string; every URL whose host lacks the
CDN marker is retried unchanged, even when it contains the mirror-segment
token. -/
theorem c7_amended (u : String) :
    (strContains (hostOf u) "cyberdrop" = false → retryRewrite u = u) ∧
    (strContains (hostOf u) "cyberdrop" = true →
      ("." ++ lastDotSegS (nameOf u)) ∈ FILE_FORMATS_Images →
      retryRewrite u = withHost u "img-01.cyberdrop.to") ∧
    (strContains (hostOf u) "cyberdrop" = true →
      ("." ++ lastDotSegS (nameOf u)) ∉ FILE_FORMATS_Images →
      retryRewrite u = strReplace u "fs-05." "fs-04.") := by
  refine ⟨fun h => by simp [retryRewrite, h], fun h hi => ?_, fun h hi => ?_⟩ <;>
    simp [retryRewrite, h, hi]

/-- Witness for `c7_amended` on all three cases. -/
theorem c7_witness :
    retryRewrite "https://bunkr.is/a/b.jpg" = "https://bunkr.is/a/b.jpg" ∧
    retryRewrite "https://cyberdrop.me/a/b.jpg" =
      withHost "https://cyberdrop.me/a/b.jpg" "img-01.cyberdrop.to" ∧
    retryRewrite "https://fs-05.cyberdrop.to/a/b.zip" =
      strReplace "https://fs-05.cyberdrop.to/a/b.zip" "fs-05." "fs-04." :=
  ⟨(c7_amended "https://bunkr.is/a/b.jpg").1 (by decide),
   (c7_amended "https://cyberdrop.me/a/b.jpg").2.1 (by decide) (by decide),
   (c7_amended "https://fs-05.cyberdrop.to/a/b.zip").2.2 (by decide) (by decide)⟩

/-! ## Helper lemmas for the state-machine claims -/

/-- What the tail of `download_file` (lines 132-181) contributes to the
trace, whatever branch it takes: the pending write and possibly the
completed write for the link's path; possibly a release of the original
filename's lock and nothing else; possibly one transfer call made under the
lock set it was entered with. -/
theorem rest_trace (env : DlEnv) (url db_path orig fname : String)
    (st : DlSt) (ev : List Ev) (out : DlOutcome) (st2 : DlSt) (ev2 : List Ev)
    (h : downloadFileRest env url db_path orig fname st ev = some (out, st2, ev2)) :
    (ledgerFlags db_path ev2 = ledgerFlags db_path ev ++ [false, true] ∨
     ledgerFlags db_path ev2 = ledgerFlags db_path ev ++ [false]) ∧
    (lockEvNames ev2 = lockEvNames ev ∨ lockEvNames ev2 = lockEvNames ev ++ [orig]) ∧
    (transferEvs ev2 = transferEvs ev ∨
     transferEvs ev2 = transferEvs ev ++ [(fname, st.locks)]) := by
  simp only [downloadFileRest] at h
  split at h
  · simp only [Option.some.injEq, Prod.mk.injEq] at h
    rcases h with ⟨rfl, rfl, rfl⟩
    refine ⟨Or.inl ?_, Or.inl ?_, Or.inl ?_⟩ <;>
      simp [ledgerFlags, lockEvNames, transferEvs]
  · split at h
    · simp only [Option.some.injEq, Prod.mk.injEq] at h
      rcases h with ⟨rfl, rfl, rfl⟩
      refine ⟨Or.inl ?_, Or.inr ?_, Or.inr ?_⟩ <;>
        simp [ledgerFlags, lockEvNames, transferEvs, renameFile]
    · split at h
      · split at h
        · split at h <;>
          · simp only [Option.some.injEq, Prod.mk.injEq] at h
            rcases h with ⟨rfl, rfl, rfl⟩
            refine ⟨Or.inr ?_, Or.inr ?_, Or.inr ?_⟩ <;>
              simp [ledgerFlags, lockEvNames, transferEvs]
        · simp only [Option.some.injEq, Prod.mk.injEq] at h
          rcases h with ⟨rfl, rfl, rfl⟩
          refine ⟨Or.inr ?_, Or.inr ?_, Or.inr ?_⟩ <;>
            simp [ledgerFlags, lockEvNames, transferEvs]
      · simp only [Option.some.injEq, Prod.mk.injEq] at h
        rcases h with ⟨rfl, rfl, rfl⟩
        refine ⟨Or.inr ?_, Or.inr ?_, Or.inr ?_⟩ <;>
          simp [ledgerFlags, lockEvNames, transferEvs]

/-- The collision loop returns the candidate of the least free index it can
reach within its fuel. -/
theorem resolveNameLoop_least (env : DlEnv) (st : DlSt) (stem ext : String)
    (fuel : Nat) :
    ∀ (n nstar : Nat), n ≤ nstar → nstar < n + fuel →
    freeName env st stem ext nstar = true →
    (∀ m, n ≤ m → m < nstar → freeName env st stem ext m = false) →
    resolveNameLoop env st stem ext fuel n =
      some (stem ++ " (" ++ toString nstar ++ ")" ++ ext) := by
  induction fuel with
  | zero =>
    intro n nstar h1 h2 _ _
    exact absurd h2 (by omega)
  | succ f ih =>
    intro n nstar h1 h2 hfree hocc
    by_cases hn : freeName env st stem ext n = true
    · have he : n = nstar := by
        by_contra hne
        have hlt : n < nstar := by omega
        exact absurd hn (by simp [hocc n le_rfl hlt])
      subst he
      simp [resolveNameLoop, hn]
    · have hne : n ≠ nstar := fun e => hn (e ▸ hfree)
      have hstep : resolveNameLoop env st stem ext (f + 1) n =
          resolveNameLoop env st stem ext f (n + 1) := by
        simp [resolveNameLoop, hn]
      rw [hstep]
      exact ih (n + 1) nstar (by omega) (by omega) hfree
        (fun m hm1 hm2 => hocc m (by omega) hm2)

theorem splitChar_ne_nil (c : Char) (l : List Char) : splitChar c l ≠ [] := by
  cases l with
  | nil => simp [splitChar]
  | cons a rest =>
    rcases h : splitChar c rest with _ | ⟨g, gs⟩
    · simp [splitChar, h]
    · by_cases hac : a = c <;> simp [splitChar, h, hac]

theorem splitChar_append (c : Char) (l₁ l₂ : List Char) :
    splitChar c (l₁ ++ c :: l₂) = splitChar c l₁ ++ splitChar c l₂ := by
  induction l₁ with
  | nil =>
    rcases h : splitChar c l₂ with _ | ⟨g, gs⟩
    · exact absurd h (splitChar_ne_nil c l₂)
    · simp [splitChar, h]
  | cons a t ih =>
    rcases h1 : splitChar c (t ++ c :: l₂) with _ | ⟨g, gs⟩
    · exact absurd h1 (splitChar_ne_nil c _)
    · rcases h2 : splitChar c t with _ | ⟨p, ps⟩
      · exact absurd h2 (splitChar_ne_nil c t)
      · rw [h1, h2] at ih
        simp only [List.cons_append, List.cons.injEq] at ih
        obtain ⟨rfl, rfl⟩ := ih
        show splitChar c (a :: (t ++ c :: l₂)) = splitChar c (a :: t) ++ splitChar c l₂
        simp only [splitChar, h1, h2]
        by_cases hac : a = c <;> simp [hac]

theorem splitChar_no_sep (c : Char) (l : List Char) (h : c ∉ l) :
    splitChar c l = [l] := by
  induction l with
  | nil => rfl
  | cons a t ih =>
    have ha : a ≠ c := fun e => h (e ▸ List.mem_cons_self a t)
    have ht : c ∉ t := fun e => h (List.mem_cons_of_mem a e)
    simp [splitChar, ih ht, ha]

theorem joinChar_cons_head (c a : Char) (g : List Char) (gs : List (List Char)) :
    joinChar c ((a :: g) :: gs) = a :: joinChar c (g :: gs) := by
  cases gs <;> simp [joinChar]

theorem joinChar_splitChar (c : Char) (l : List Char) :
    joinChar c (splitChar c l) = l := by
  induction l with
  | nil => rfl
  | cons a t ih =>
    rcases h : splitChar c t with _ | ⟨g, gs⟩
    · exact absurd h (splitChar_ne_nil c t)
    · rw [h] at ih
      by_cases hac : a = c
      · have hs : splitChar c (a :: t) = [] :: g :: gs := by simp [splitChar, h, hac]
        rw [hs]
        simp [joinChar, ih, hac]
      · have hs : splitChar c (a :: t) = (a :: g) :: gs := by simp [splitChar, h, hac]
        rw [hs, joinChar_cons_head, ih]

theorem lastSeg_append (c : Char) (l₁ l₂ : List Char) (h : c ∉ l₂) :
    lastSeg c (l₁ ++ c :: l₂) = l₂ := by
  unfold lastSeg
  rw [splitChar_append, splitChar_no_sep _ _ h]
  exact List.getLastD_concat _ _ _

theorem stemOf_append (l₁ l₂ : List Char) (h1 : l₁ ≠ []) (h2 : '.' ∉ l₂) :
    stemOf (l₁ ++ '.' :: l₂) = l₁ := by
  have hne := splitChar_ne_nil '.' l₁
  have hlen : 0 < (splitChar '.' l₁).length := List.length_pos.mpr hne
  simp only [stemOf, splitChar_append, splitChar_no_sep _ _ h2]
  rw [if_neg (by simp only [List.length_append, List.length_cons, List.length_nil]; omega)]
  rw [List.dropLast_concat, joinChar_splitChar, if_neg h1]

/-! ## Claims C2, C4, C5, C8, C9, C10 -/

/-- C2: the code violates the claim.  On the dedup exit path (disk already
holds the completed file at the expected size, line 116) and on the
mark-downloaded-only exit path (line 136), `download_file` returns normally
with the filename still in the lock table and no release ever issued: both
returns sit between `add_lock` (line 105) and the releases at
lines 157-166. -/
theorem c2_lock_leak :
    leaksLock Wenv "https://h.example.com/a/b.jpg" "b.jpg" WstDedup 9 = true ∧
    leaksLock WenvMark "https://h.example.com/a/b.jpg" "b.jpg" ⟨[], [], []⟩ 9 = true :=
  ⟨by decide, by decide⟩

/-- C4, counterexample: the claim fails on the code.  When the completed
file is already on disk with the expected size but the ledger has no record
of the path, line 114 inserts the record with `completed = 1` directly: the
path jumps from absent to completed with no pending write. -/
theorem c4_counterexample : ¬ c4Claim := by
  intro h
  have hx := h Wenv "https://h.example.com/a/b.jpg" "b.jpg" WstDedup 9 .ret
    WstDedupOut WevDedup rfl
  exact absurd hx (by decide)

/-- C4 amended: in any single run the ledger writes for the link's path are
one of: none; a single completed insert (the on-disk dedup path, which skips
the pending stage); a single pending insert (a failed transfer); or a
pending insert followed by the completed update — so within a run the record
never regresses, but the dedup path does reach completed without a prior
pending write. -/
theorem c4_amended (env : DlEnv) (url fn : String) (st : DlSt) (fuel : Nat)
    (out : DlOutcome) (st2 : DlSt) (ev : List Ev)
    (h : downloadFile env url fn st fuel = some (out, st2, ev)) :
    ledgerFlags (dbPathOf url) ev = [] ∨
    ledgerFlags (dbPathOf url) ev = [true] ∨
    ledgerFlags (dbPathOf url) ev = [false] ∨
    ledgerFlags (dbPathOf url) ev = [false, true] := by
  simp only [downloadFile] at h
  split at h
  · simp only [Option.some.injEq, Prod.mk.injEq] at h
    rcases h with ⟨rfl, rfl, rfl⟩
    exact Or.inl (by simp [ledgerFlags])
  · split at h
    · exact absurd h (by simp)
    · split at h
      · split at h
        · simp only [Option.some.injEq, Prod.mk.injEq] at h
          rcases h with ⟨rfl, rfl, rfl⟩
          exact Or.inr (Or.inl (by simp [ledgerFlags]))
        · split at h
          · have hz : ledgerFlags (dbPathOf url) [Ev.lockAdd fn] = [] := by
              simp [ledgerFlags]
            rcases (rest_trace _ _ _ _ _ _ _ _ _ _ h).1 with h1 | h1 <;>
              rw [hz, List.nil_append] at h1 <;> simp [h1]
          · split at h
            · have hz : ledgerFlags (dbPathOf url) [Ev.lockAdd fn] = [] := by
                simp [ledgerFlags]
              rcases (rest_trace _ _ _ _ _ _ _ _ _ _ h).1 with h1 | h1 <;>
                rw [hz, List.nil_append] at h1 <;> simp [h1]
            · exact absurd h (by simp)
      · have hz : ledgerFlags (dbPathOf url) [Ev.lockAdd fn] = [] := by
          simp [ledgerFlags]
        rcases (rest_trace _ _ _ _ _ _ _ _ _ _ h).1 with h1 | h1 <;>
          rw [hz, List.nil_append] at h1 <;> simp [h1]

/-- Witness for `c4_amended` on the collision scenario, whose run writes
pending then completed. -/
theorem c4_witness :
    ledgerFlags "/x/a.jpg" WevColl = [] ∨
    ledgerFlags "/x/a.jpg" WevColl = [true] ∨
    ledgerFlags "/x/a.jpg" WevColl = [false] ∨
    ledgerFlags "/x/a.jpg" WevColl = [false, true] := by
  have hx := c4_amended Wenv "https://h.example.com/x/a.jpg" "a.jpg" WstColl 9 .ret
    WstCollOut WevColl rfl
  simpa using hx

/-- C5: a link whose normalized path is already recorded completed in the
ledger, or whose completed file is on disk with exactly the server-reported
size, performs no transfer-session byte-transfer call: the run exits at
line 95 or line 116, before `session.download_file`. -/
theorem c5_no_retransfer (env : DlEnv) (url fn : String) (st : DlSt) (fuel : Nat)
    (out : DlOutcome) (st2 : DlSt) (ev : List Ev)
    (hpre : completedIn st.ledger (dbPathOf url) = true ∨
      diskGet st.disk (env.folder ++ "/" ++ env.title ++ "/" ++ fn) = some env.totalSize)
    (h : downloadFile env url fn st fuel = some (out, st2, ev)) :
    transferEvs ev = [] := by
  by_cases hc : completedIn st.ledger (dbPathOf url) = true
  · simp only [downloadFile, hc, if_true] at h
    simp only [Option.some.injEq, Prod.mk.injEq] at h
    rcases h with ⟨rfl, rfl, rfl⟩
    simp [transferEvs]
  · rcases hpre with hd | hd
    · exact absurd hd hc
    · rw [Bool.not_eq_true] at hc
      simp only [downloadFile, hc, Bool.false_eq_true, if_false] at h
      split at h
      · exact absurd h (by simp)
      · rw [hd] at h
        simp only [Option.isSome_some, Bool.true_or, if_true, Option.some.injEq,
          decide_eq_true_eq, Bool.true_and, Prod.mk.injEq] at h
        rcases h with ⟨rfl, rfl, rfl⟩
        simp [transferEvs]

/-- Witness for `c5_no_retransfer` on the on-disk dedup scenario. -/
theorem c5_witness : transferEvs WevDedup = [] :=
  c5_no_retransfer Wenv "https://h.example.com/a/b.jpg" "b.jpg" WstDedup 9 .ret
    WstDedupOut WevDedup (Or.inr (by decide)) rfl

/-- C8: when the ledger holds no previously assigned name, the collision
loop of lines 121-128 tries `stem (1)ext, stem (2)ext, …` and returns the
first candidate that neither exists on disk nor is recorded in the ledger's
name index. -/
theorem c8_collision (env : DlEnv) (st : DlSt) (stem ext : String)
    (fuel nstar : Nat) (h1 : 1 ≤ nstar) (h2 : nstar < 1 + fuel)
    (hfree : freeName env st stem ext nstar = true)
    (hocc : ∀ m, 1 ≤ m → m < nstar → freeName env st stem ext m = false) :
    resolveNameLoop env st stem ext fuel 1 =
      some (stem ++ " (" ++ toString nstar ++ ")" ++ ext) :=
  resolveNameLoop_least env st stem ext fuel 1 nstar h1 h2 hfree hocc

/-- Witness for `c8_collision`: with `a.jpg` and `a (1).jpg` taken, the link
that would produce `a.jpg` resolves to `a (2).jpg`. -/
theorem c8_witness :
    resolveNameLoop Wenv WstColl "a" ".jpg" 9 1 = some "a (2).jpg" := by
  have h := c8_collision Wenv WstColl "a" ".jpg" 9 2 (by omega) (by omega) (by decide)
    (fun m hm1 hm2 => by
      have hm : m = 1 := by omega
      subst hm
      decide)
  rw [h]
  decide

/-- C9, counterexample: the claim fails on the code.  For the 7-character
name `ab.jpeg` and maximum length 5, lines 204-206 produce `ab.jp.jpeg`:
the slice `filename[:MAX_FILENAME_LENGTH]` cuts the whole name, not the
stem, so the kept prefix `ab.jp` is not a truncation of the stem `ab`. -/
theorem c9_counterexample : ¬ c9Claim := by
  intro h
  obtain ⟨pfx, hp, he⟩ := h "ab.jpeg".data 5 (by decide)
  have hs : stemOf "ab.jpeg".data = "ab".data := by decide
  rw [hs] at hp
  have hle : pfx.length ≤ 2 := by
    have h2 : ("ab".data : List Char).length = 2 := by decide
    have := hp.length_le
    omega
  have hlen := congrArg List.length he
  have h10 : (truncStep 5 "ab.jpeg".data).length = 10 := by decide
  have h4 : (lastSeg '.' "ab.jpeg".data).length = 4 := by decide
  rw [h10, List.length_append, List.length_cons, h4] at hlen
  omega

/-- C9 amended: for a too-long name whose stem is at least the maximum
length — that is, whenever the cut lands inside the stem — the returned
name is the stem truncated to the maximum followed by exactly the original
extension; when the stem is shorter than the maximum the kept prefix also
contains the dot and part of the extension. -/
theorem c9_amended (stem ext : List Char) (maxLen : Nat) (h1 : stem ≠ [])
    (h2 : '.' ∉ ext) (h3 : maxLen < (stem ++ '.' :: ext).length)
    (h4 : maxLen ≤ stem.length) :
    truncStep maxLen (stem ++ '.' :: ext) = stem.take maxLen ++ '.' :: ext ∧
    stemOf (stem ++ '.' :: ext) = stem ∧
    lastSeg '.' (stem ++ '.' :: ext) = ext ∧
    stem.take maxLen <+: stemOf (stem ++ '.' :: ext) := by
  have hst := stemOf_append stem ext h1 h2
  have hls := lastSeg_append '.' stem ext h2
  refine ⟨?_, hst, hls, ?_⟩
  · unfold truncStep
    rw [if_pos h3, hls, List.take_append_of_le_length h4]
  · rw [hst]
    exact List.take_prefix _ _

/-- Witness for `c9_amended` at `abcdef.jpeg` with maximum length 3. -/
theorem c9_witness :
    truncStep 3 ("abcdef".data ++ '.' :: "jpeg".data) =
      ("abcdef".data : List Char).take 3 ++ '.' :: "jpeg".data ∧
    stemOf ("abcdef".data ++ '.' :: "jpeg".data) = "abcdef".data ∧
    lastSeg '.' ("abcdef".data ++ '.' :: "jpeg".data) = "jpeg".data ∧
    ("abcdef".data : List Char).take 3 <+: stemOf ("abcdef".data ++ '.' :: "jpeg".data) :=
  c9_amended "abcdef".data "jpeg".data 3 (by decide) (by decide) (by decide) (by decide)

/-- C10: every lock-table operation of a `download_file` run targets the
originally resolved filename captured at line 100 — never a
collision-disambiguated name — and the transfer-session call happens under
exactly the lock set «original filename + whatever was already held», so a
disambiguated final name distinct from the original is locked at transfer
time only if it was already in the table beforehand. -/
theorem c10_lock_original (env : DlEnv) (url fn : String) (st : DlSt) (fuel : Nat)
    (out : DlOutcome) (st2 : DlSt) (ev : List Ev)
    (h : downloadFile env url fn st fuel = some (out, st2, ev)) :
    (∀ n ∈ lockEvNames ev, n = fn) ∧
    (∀ pr ∈ transferEvs ev, pr.2 = fn :: st.locks ∧
      (pr.1 ≠ fn → pr.1 ∉ st.locks → pr.1 ∉ pr.2)) := by
  have step : ∀ dn st1 out1 st3 ev3,
      downloadFileRest env url (dbPathOf url) fn dn
        { locks := fn :: st.locks, ledger := st1, disk := st.disk } [Ev.lockAdd fn] =
        some (out1, st3, ev3) →
      (∀ n ∈ lockEvNames ev3, n = fn) ∧
      (∀ pr ∈ transferEvs ev3, pr.2 = fn :: st.locks ∧
        (pr.1 ≠ fn → pr.1 ∉ st.locks → pr.1 ∉ pr.2)) := by
    intro dn st1 out1 st3 ev3 h3
    have hzl : lockEvNames [Ev.lockAdd fn] = [fn] := by simp [lockEvNames]
    have hzt : transferEvs [Ev.lockAdd fn] = [] := by simp [transferEvs]
    obtain ⟨-, hl, ht⟩ := rest_trace _ _ _ _ _ _ _ _ _ _ h3
    constructor
    · rcases hl with h1 | h1 <;> rw [hzl] at h1 <;> rw [h1]
      · intro n hn
        simpa using hn
      · intro n hn
        simpa using hn
    · rcases ht with h1 | h1 <;> rw [hzt] at h1 <;> rw [h1]
      · intro pr hpr
        simp at hpr
      · intro pr hpr
        simp at hpr
        subst hpr
        refine ⟨rfl, fun hne hnin => ?_⟩
        simp [hne, hnin]
  simp only [downloadFile] at h
  split at h
  · simp only [Option.some.injEq, Prod.mk.injEq] at h
    rcases h with ⟨rfl, rfl, rfl⟩
    constructor
    · intro n hn
      simp [lockEvNames] at hn
    · intro pr hpr
      simp [transferEvs] at hpr
  · split at h
    · exact absurd h (by simp)
    · split at h
      · split at h
        · simp only [Option.some.injEq, Prod.mk.injEq] at h
          rcases h with ⟨rfl, rfl, rfl⟩
          constructor
          · intro n hn
            simpa [lockEvNames] using hn
          · intro pr hpr
            simp [transferEvs] at hpr
        · split at h
          · exact step _ _ _ _ _ h
          · split at h
            · exact step _ _ _ _ _ h
            · exact absurd h (by simp)
      · exact step _ _ _ _ _ h

/-- Witness for `c10_lock_original` on the collision scenario: the transfer
that writes `a (2).jpg` runs under a lock on `a.jpg` only, so no lock on
`a (2).jpg` itself is held. -/
theorem c10_witness :
    (("a (2).jpg", ["a.jpg"]) : String × List String).2 = "a.jpg" :: WstColl.locks ∧
    (("a (2).jpg", ["a.jpg"]) : String × List String).1 ∉
      (("a (2).jpg", ["a.jpg"]) : String × List String).2 := by
  have h := c10_lock_original Wenv "https://h.example.com/x/a.jpg" "a.jpg" WstColl 9 .ret
    WstCollOut WevColl rfl
  have hm : (("a (2).jpg", ["a.jpg"]) : String × List String) ∈ transferEvs WevColl := by
    decide
  exact ⟨(h.2 _ hm).1, (h.2 _ hm).2 (by decide) (by decide)⟩
